import Mathlib

/-!
Shallow embedding of `src/main.py` (beam curvature → slope → deflection
pipeline).  Machine floats are modelled by exact rationals `ℚ`; NumPy
arrays by `List ℚ`.  Out-of-range indexing (a Python `IndexError`) is
modelled by `List.getD _ 0`; every use in the program stays in range.
-/

namespace Beam

/-- Body of the loop in `get_bending_moments`:
`moment = (x_pos * (load * length) / 2) - (load * x_pos * (x_pos/2))`. -/
def moment (load length x_pos : ℚ) : ℚ :=
  x_pos * (load * length) / 2 - load * x_pos * (x_pos / 2)

/-- `get_bending_moments(x_axis, load, length)`: the loop appends
`moment` of each mesh point, i.e. a map over the mesh. -/
def get_bending_moments (x_axis : List ℚ) (load length : ℚ) : List ℚ :=
  x_axis.map (moment load length)

/-- `get_curvatures(bending_moment_list, modulus, inertia)`:
pointwise (NumPy broadcast) division by `modulus * inertia`. -/
def get_curvatures (bending_moment_list : List ℚ) (modulus inertia : ℚ) : List ℚ :=
  bending_moment_list.map (fun m => m / (modulus * inertia))

/-- Option-guarded variant of `get_curvatures`: returns `none` on the
zero denominator the source divides by unconditionally. -/
def get_curvaturesChecked (bending_moment_list : List ℚ) (modulus inertia : ℚ) :
    Option (List ℚ) :=
  if modulus * inertia = 0 then none
  else some (get_curvatures bending_moment_list modulus inertia)

/-- The running trapezoidal accumulation shared by `get_slopes` and
`get_deflections`: starting from the value `prev` produced at index
`i - 1`, emit the values at indices `i, i+1, ...` (`fuel` many), each
`cur = prev + (dx/2) * (ys[i] + ys[i-1])`. -/
def trapFrom (dx : ℚ) (ys : List ℚ) : ℚ → Nat → Nat → List ℚ
  | _, _, 0 => []
  | prev, i, Nat.succ fuel =>
    let cur := prev + dx / 2 * (ys.getD i 0 + ys.getD (i - 1) 0)
    cur :: trapFrom dx ys cur (i + 1) fuel

/-- `get_slopes(dx, x_axis, curvature_list, slope_init)`: index 0 gets
`slope_init`, index `i ≥ 1` gets `slope + (dx/2)*(κ[i] + κ[i-1])` with
the running value `slope`. -/
def get_slopes (dx : ℚ) (x_axis curvature_list : List ℚ) (slope_init : ℚ) : List ℚ :=
  match x_axis.length with
  | 0 => []
  | Nat.succ m => slope_init :: trapFrom dx curvature_list slope_init 1 m

/-- `get_deflections(dx, x_axis, slope_list)`: same scheme, seed `0`. -/
def get_deflections (dx : ℚ) (x_axis slope_list : List ℚ) : List ℚ :=
  match x_axis.length with
  | 0 => []
  | Nat.succ m => (0 : ℚ) :: trapFrom dx slope_list 0 1 m

/-- `np.arange(start, stop, step)` over exact rationals: the
`⌈(stop - start)/step⌉` points `start + i*step`. -/
def arange (start stop step : ℚ) : List ℚ :=
  (List.range (Int.toNat ⌈(stop - start) / step⌉)).map
    (fun i : Nat => start + (i : ℚ) * step)

/-- The space mesh built in `main`:
`x_axis = np.arange(0, length, dx)` followed by
`x_axis = np.append(x_axis, length)`. -/
def space_mesh (length dx : ℚ) : List ℚ :=
  arange 0 length dx ++ [length]

namespace Main

/-- `load = 10 * 10**3`. -/
def load : ℚ := 10 * 10 ^ 3

/-- `length = 5`. -/
def length : ℚ := 5

/-- `dx = 0.1`. -/
def dx : ℚ := 1 / 10

/-- `inertia = (1/12)*0.3*0.5**3`. -/
def inertia : ℚ := 1 / 12 * (3 / 10) * (1 / 2) ^ 3

/-- `modulus = 30 * 10**9`. -/
def modulus : ℚ := 30 * 10 ^ 9

/-- `x_axis = np.arange(0, length, dx)` then `np.append(x_axis, length)`. -/
def x_axis : List ℚ := space_mesh length dx

/-- `bending_moment_list = get_bending_moments(x_axis, load, length)`. -/
def bending_moment_list : List ℚ := get_bending_moments x_axis load length

/-- `curvature_list = get_curvatures(bending_moment_list, modulus, inertia)`. -/
def curvature_list : List ℚ := get_curvatures bending_moment_list modulus inertia

/-- `slope_init_0 = 0`. -/
def slope_init_0 : ℚ := 0

/-- First pass: `slope_list = get_slopes(dx, x_axis, curvature_list, slope_init_0)`. -/
def slope_list_pass1 : List ℚ := get_slopes dx x_axis curvature_list slope_init_0

/-- `slope_midspan = slope_list[int(len(slope_list) / 2)]`. -/
def slope_midspan : ℚ := slope_list_pass1.getD (slope_list_pass1.length / 2) 0

/-- `slope_error = (0 - slope_midspan)`. -/
def slope_error : ℚ := 0 - slope_midspan

/-- `slope_init_1 = slope_init_0 + slope_error`. -/
def slope_init_1 : ℚ := slope_init_0 + slope_error

/-- Second pass: `slope_list = get_slopes(dx, x_axis, curvature_list, slope_init_1)`. -/
def slope_list : List ℚ := get_slopes dx x_axis curvature_list slope_init_1

/-- `deflection_list = get_deflections(dx, x_axis, slope_list)`. -/
def deflection_list : List ℚ := get_deflections dx x_axis slope_list

/-- `deflection_mid = deflection_list[int(len(deflection_list) / 2)]`. -/
def deflection_mid : ℚ := deflection_list.getD (deflection_list.length / 2) 0

/-- `deflection_mid_theor = - (5/384) * (load * length**4) / (modulus * inertia)`. -/
def deflection_mid_theor : ℚ := -(5 / 384) * (load * length ^ 4) / (modulus * inertia)

end Main

set_option maxRecDepth 100000

/-! ### Helper lemmas -/

/-- The trapezoidal accumulator emits exactly `fuel` values. -/
theorem trapFrom_length (dx : ℚ) (ys : List ℚ) :
    ∀ (n i : Nat) (p : ℚ), (trapFrom dx ys p i n).length = n
  | 0, _, _ => rfl
  | n + 1, i, p => by
    simp only [trapFrom, List.length_cons]
    rw [trapFrom_length dx ys n (i + 1)]

/-- `get_slopes` returns one slope per mesh point. -/
theorem get_slopes_length (dx : ℚ) (x κ : List ℚ) (s : ℚ) :
    (get_slopes dx x κ s).length = x.length := by
  cases h : x.length with
  | zero => simp only [get_slopes, h]; rfl
  | succ m => simp only [get_slopes, h, List.length_cons, trapFrom_length]

/-- `get_deflections` returns one deflection per mesh point. -/
theorem get_deflections_length (dx : ℚ) (x s : List ℚ) :
    (get_deflections dx x s).length = x.length := by
  cases h : x.length with
  | zero => simp only [get_deflections, h]; rfl
  | succ m => simp only [get_deflections, h, List.length_cons, trapFrom_length]

/-- Shifting the running value shifts every emitted value. -/
theorem trapFrom_shift (dx : ℚ) (ys : List ℚ) (c : ℚ) :
    ∀ (n i : Nat) (p : ℚ),
      trapFrom dx ys (p + c) i n = (trapFrom dx ys p i n).map (fun v => v + c)
  | 0, _, _ => rfl
  | n + 1, i, p => by
    simp only [trapFrom, List.map_cons]
    have h : p + c + dx / 2 * (ys.getD i 0 + ys.getD (i - 1) 0)
        = p + dx / 2 * (ys.getD i 0 + ys.getD (i - 1) 0) + c := by ring
    rw [h, trapFrom_shift dx ys c n (i + 1)]

/-- Shifting the seed of `get_slopes` shifts every output slope. -/
theorem get_slopes_shift (dx : ℚ) (x κ : List ℚ) (s c : ℚ) :
    get_slopes dx x κ (s + c) = (get_slopes dx x κ s).map (fun v => v + c) := by
  cases h : x.length with
  | zero => simp only [get_slopes, h]; rfl
  | succ m => simp only [get_slopes, h, List.map_cons, trapFrom_shift]

/-- One step of the trapezoidal accumulator, as a recurrence on its output. -/
theorem trapFrom_getD_succ (dx : ℚ) (ys : List ℚ) :
    ∀ (j n i : Nat) (p : ℚ), j + 1 < n →
      (trapFrom dx ys p i n).getD (j + 1) 0
        = (trapFrom dx ys p i n).getD j 0
          + dx / 2 * (ys.getD (i + j + 1) 0 + ys.getD (i + j) 0) := by
  intro j
  induction j with
  | zero =>
    intro n i p h
    match n, h with
    | m + 2, _ =>
      simp only [trapFrom, List.getD_cons_succ, List.getD_cons_zero]
      simp
  | succ j ih =>
    intro n i p h
    match n, h with
    | m + 1, h =>
      have hjm : j + 1 < m := by omega
      simp only [trapFrom, List.getD_cons_succ]
      rw [ih m (i + 1) _ hjm]
      have e : i + 1 + j = i + (j + 1) := by omega
      rw [e]

/-- Number of samples produced by `arange`. -/
theorem arange_length (start stop step : ℚ) :
    (arange start stop step).length = Int.toNat ⌈(stop - start) / step⌉ := by
  simp only [arange, List.length_map, List.length_range]

/-- The `i`-th sample of `arange` is `start + i * step`. -/
theorem arange_getD (start stop step : ℚ) (i : Nat)
    (hi : i < Int.toNat ⌈(stop - start) / step⌉) :
    (arange start stop step).getD i 0 = start + i * step := by
  rw [List.getD_eq_getElem _ _ (by simpa [arange_length] using hi)]
  simp only [arange, List.getElem_map, List.getElem_range]

/-- Mapping `v ↦ v + c` over a list shifts the entry at any in-range index. -/
theorem getD_map_add (l : List ℚ) (c : ℚ) (i : Nat) (hi : i < l.length) :
    (l.map (fun v => v + c)).getD i 0 = l.getD i 0 + c := by
  rw [List.getD_eq_getElem _ _ (by simpa using hi), List.getD_eq_getElem _ _ hi,
    List.getElem_map]

/-! ### Claim theorems -/

/-- C1: two-pass shooting correction zeroes the mid-span slope.  If `s` is
the entry at index `⌊n/2⌋` of `get_slopes` run with seed `0` over a mesh of
`n` points, re-running `get_slopes` with seed `0 - s` yields exactly `0` at
index `⌊n/2⌋` (exact rational arithmetic). -/
theorem two_pass_correction_zeroes_midspan_slope (dx : ℚ) (x κ : List ℚ)
    (hx : x ≠ []) :
    (get_slopes dx x κ
        (0 - (get_slopes dx x κ 0).getD (x.length / 2) 0)).getD (x.length / 2) 0
      = 0 := by
  have hlen : (get_slopes dx x κ 0).length = x.length := get_slopes_length dx x κ 0
  have hpos : 0 < x.length := List.length_pos.mpr hx
  have hmid : x.length / 2 < x.length := Nat.div_lt_self hpos one_lt_two
  have h0 : (0 : ℚ) - (get_slopes dx x κ 0).getD (x.length / 2) 0
      = 0 + (-(get_slopes dx x κ 0).getD (x.length / 2) 0) := by ring
  rw [h0, get_slopes_shift, getD_map_add _ _ _ (by rw [hlen]; exact hmid)]
  ring

/-- Witness for C1 at `dx = 1`, mesh `[0, 1, 2]`, curvatures `[1, 2, 3]`. -/
theorem two_pass_correction_zeroes_midspan_slope_witness :
    (get_slopes 1 [0, 1, 2] [1, 2, 3]
        (0 - (get_slopes 1 [0, 1, 2] [1, 2, 3] 0).getD 1 0)).getD 1 0 = 0 :=
  two_pass_correction_zeroes_midspan_slope 1 [0, 1, 2] [1, 2, 3] (by simp)

/-- C3 (counterexample): `get_slopes` does not use the local mesh step.
On the mesh `[0, 1, 3/2]` with nominal step `dx = 1` and constant
curvature `2`, the slope at index 2 is `4`, not the value
`theta_1 + ((x_2 - x_1)/2) * (kappa_2 + kappa_1) = 3` that the local-step
recurrence predicts. -/
theorem local_step_recurrence_counterexample :
    ¬ ((get_slopes 1 [0, 1, 3 / 2] [2, 2, 2] 0).getD 2 0
        = (get_slopes 1 [0, 1, 3 / 2] [2, 2, 2] 0).getD 1 0
          + (((3 : ℚ) / 2 - 1) / 2) * ((2 : ℚ) + 2)) := by decide!

/-- C3 (amended): the slope integrator follows the trapezoidal recurrence
with the fixed nominal step `dx` it is passed: `theta_0 = seed` and
`theta_i = theta_(i-1) + (dx/2) * (kappa_i + kappa_(i-1))` for `1 ≤ i`,
regardless of the local mesh spacing `x_i - x_(i-1)`. -/
theorem get_slopes_fixed_dx_recurrence (dx : ℚ) (x κ : List ℚ) (s : ℚ) :
    (x ≠ [] → (get_slopes dx x κ s).getD 0 0 = s)
    ∧ ∀ i : Nat, 1 ≤ i → i < x.length →
        (get_slopes dx x κ s).getD i 0
          = (get_slopes dx x κ s).getD (i - 1) 0
            + dx / 2 * (κ.getD i 0 + κ.getD (i - 1) 0) := by
  constructor
  · intro hx
    cases h : x.length with
    | zero => exact absurd (List.length_eq_zero.mp h) hx
    | succ m => simp [get_slopes, h]
  · intro i h1 h2
    cases h : x.length with
    | zero => rw [h] at h2; omega
    | succ m =>
      rw [h] at h2
      match i, h1 with
      | 1, _ =>
        have hm : 1 ≤ m := by omega
        match m, hm with
        | m' + 1, _ =>
          simp only [get_slopes, h, trapFrom, List.getD_cons_succ,
            List.getD_cons_zero]
          norm_num
      | j + 2, _ =>
        have e0 : j + 2 - 1 = j + 1 := rfl
        rw [e0]
        simp only [get_slopes, h, List.getD_cons_succ]
        rw [trapFrom_getD_succ dx κ j m 1 s (by omega)]
        have e1 : 1 + j + 1 = j + 2 := by omega
        have e2 : 1 + j = j + 1 := by omega
        rw [e1, e2]

/-- Witness for C3's amended recurrence at index 2 of the same mesh as the
counterexample: the code adds `dx/2 = 1/2` times the curvature sum. -/
theorem get_slopes_fixed_dx_recurrence_witness :
    (get_slopes 1 [0, 1, 3 / 2] [2, 2, 2] 0).getD 2 0
      = (get_slopes 1 [0, 1, 3 / 2] [2, 2, 2] 0).getD 1 0
        + 1 / 2 * (([2, 2, 2] : List ℚ).getD 2 0 + ([2, 2, 2] : List ℚ).getD 1 0) :=
  (get_slopes_fixed_dx_recurrence 1 [0, 1, 3 / 2] [2, 2, 2] 0).2 2
    (by omega) (by simp)

/-- C4: the bending moment vanishes at both supports: `M(0) = 0` and
`M(L) = 0` for every load and length, so a mesh starting at `0` and ending
at `L` yields `0` in the first and last moment positions. -/
theorem bending_moment_zero_at_supports (w L : ℚ) :
    moment w L 0 = 0 ∧ moment w L L = 0
    ∧ (∀ x : List ℚ, x.head? = some 0 →
        (get_bending_moments x w L).head? = some 0)
    ∧ (∀ x : List ℚ, x.getLast? = some L →
        (get_bending_moments x w L).getLast? = some 0) := by
  have h0 : moment w L 0 = 0 := by simp only [moment]; ring
  have hL : moment w L L = 0 := by simp only [moment]; ring
  refine ⟨h0, hL, ?_, ?_⟩
  · intro x hx
    simp [get_bending_moments, hx, h0]
  · intro x hx
    simp [get_bending_moments, hx, hL]

/-- Witness for C4 with `w = 1`, `L = 2` on the mesh `[0, 2]`. -/
theorem bending_moment_zero_at_supports_witness :
    (get_bending_moments [0, 2] 1 2).head? = some 0
    ∧ (get_bending_moments [0, 2] 1 2).getLast? = some 0 :=
  ⟨(bending_moment_zero_at_supports 1 2).2.2.1 [0, 2] rfl,
   (bending_moment_zero_at_supports 1 2).2.2.2 [0, 2] (by simp)⟩

/-- C5: the bending moment is maximal at mid-span with value `w L² / 8`:
for `0 < w` and `0 < L`, every `x ∈ [0, L]` has `M(x) ≤ w L² / 8`, with
equality exactly at `x = L / 2`; hence every entry of the moment sequence
over a mesh contained in `[0, L]` is at most `w L² / 8`. -/
theorem bending_moment_max_at_midspan (w L : ℚ) (hw : 0 < w) (_hL : 0 < L) :
    (∀ x : ℚ, 0 ≤ x → x ≤ L →
        moment w L x ≤ w * L ^ 2 / 8
        ∧ (moment w L x = w * L ^ 2 / 8 ↔ x = L / 2))
    ∧ moment w L (L / 2) = w * L ^ 2 / 8
    ∧ ∀ xs : List ℚ, (∀ y ∈ xs, 0 ≤ y ∧ y ≤ L) →
        ∀ m ∈ get_bending_moments xs w L, m ≤ w * L ^ 2 / 8 := by
  have key : ∀ x : ℚ, w * L ^ 2 / 8 - moment w L x = w / 2 * (x - L / 2) ^ 2 := by
    intro x; simp only [moment]; ring
  have hle : ∀ x : ℚ, moment w L x ≤ w * L ^ 2 / 8 := by
    intro x
    nlinarith [sq_nonneg (x - L / 2), key x]
  have hiff : ∀ x : ℚ, moment w L x = w * L ^ 2 / 8 ↔ x = L / 2 := by
    intro x
    constructor
    · intro hx
      have h2 : w / 2 * (x - L / 2) ^ 2 = 0 := by
        have h3 := key x
        rw [hx] at h3
        linarith

      have hw2 : w / 2 ≠ 0 := by positivity
      have h4 : (x - L / 2) ^ 2 = 0 := by
        rcases mul_eq_zero.mp h2 with h | h
        · exact absurd h hw2
        · exact h
      have h5 : x - L / 2 = 0 := by
        exact sq_eq_zero_iff.mp h4
      linarith
    · intro hx
      have h3 := key (L / 2)
      rw [hx]
      simp only [sub_self] at h3
      nlinarith [h3]
  refine ⟨fun x _ _ => ⟨hle x, hiff x⟩, (hiff (L / 2)).mpr rfl, ?_⟩
  intro xs _ m hm
  simp only [get_bending_moments, List.mem_map] at hm
  obtain ⟨y, _, rfl⟩ := hm
  exact hle y

/-- Witness for C5 with `w = 1`, `L = 2` at the mid-span point. -/
theorem bending_moment_max_at_midspan_witness :
    moment 1 2 (2 / 2) = 1 * 2 ^ 2 / 8 :=
  (bending_moment_max_at_midspan 1 2 one_pos two_pos).2.1

/-- C8: every pipeline stage returns a sequence of the same length as the
mesh, so moments, curvatures, slopes and deflections stay aligned
index-for-index with the mesh. -/
theorem pipeline_length_invariant (x κ slopes : List ℚ) (w L E I d s0 : ℚ) :
    (get_bending_moments x w L).length = x.length
    ∧ (get_curvatures (get_bending_moments x w L) E I).length = x.length
    ∧ (get_slopes d x κ s0).length = x.length
    ∧ (get_deflections d x slopes).length = x.length := by
  refine ⟨?_, ?_, get_slopes_length d x κ s0, get_deflections_length d x slopes⟩
  · simp [get_bending_moments]
  · simp [get_curvatures, get_bending_moments]

/-- C9: the division in `get_curvatures` is unguarded.  Whenever
`modulus * inertia ≠ 0` the `none` branch of the Option-guarded embedding
is unreachable and it agrees with the source function; at a zero denominator
(`modulus = 0`) the guarded embedding reports `none`, while the source
function still divides and returns a full-length output with no distinct
error. -/
theorem curvature_division_unguarded (m : List ℚ) (E I : ℚ) (hEI : E * I ≠ 0) :
    get_curvaturesChecked m E I = some (get_curvatures m E I)
    ∧ get_curvaturesChecked m 0 I = none
    ∧ (get_curvatures m 0 I).length = m.length := by
  refine ⟨?_, ?_, ?_⟩
  · simp [get_curvaturesChecked, hEI]
  · simp [get_curvaturesChecked]
  · simp [get_curvatures]

/-- Witness for C9 with `m = [1]`, `E = 2`, `I = 3`. -/
theorem curvature_division_unguarded_witness :
    get_curvaturesChecked [1] 2 3 = some (get_curvatures [1] 2 3)
    ∧ get_curvaturesChecked [1] 0 3 = none
    ∧ (get_curvatures [1] 0 3).length = [(1 : ℚ)].length :=
  curvature_division_unguarded [1] 2 3 (by norm_num)

/-- C10: `get_slopes` is affine in its seed: the output with seed `s` is
the output with seed `t` shifted pointwise by `s - t`, both as lists and at
every in-range index (exact arithmetic). -/
theorem get_slopes_affine_in_seed (dx s t : ℚ) (x κ : List ℚ) :
    get_slopes dx x κ s = (get_slopes dx x κ t).map (fun v => v + (s - t))
    ∧ ∀ i : Nat, i < x.length →
        (get_slopes dx x κ s).getD i 0
          = s - t + (get_slopes dx x κ t).getD i 0 := by
  have hs : s = t + (s - t) := by ring
  have h1 : get_slopes dx x κ s = (get_slopes dx x κ t).map (fun v => v + (s - t)) := by
    conv_lhs => rw [hs]
    exact get_slopes_shift dx x κ t (s - t)
  refine ⟨h1, ?_⟩
  intro i hi
  rw [h1, getD_map_add _ _ _ (by rw [get_slopes_length]; exact hi)]
  ring

/-- Witness for C10 with seeds `5` and `2` on a two-point mesh. -/
theorem get_slopes_affine_in_seed_witness :
    (get_slopes 1 [0, 1] [2, 3] 5).getD 1 0
      = 5 - 2 + (get_slopes 1 [0, 1] [2, 3] 2).getD 1 0 :=
  (get_slopes_affine_in_seed 1 5 2 [0, 1] [2, 3]).2 1 (by simp)

/-- C2: for the program's fixed constants, the computed mid-span
deflection (`-347/400000`) agrees with the closed-form value
`-(5/384) w L⁴ / (E I) = -1/1152` to within 1% relative error. -/
theorem midspan_deflection_within_one_percent :
    |Main.deflection_mid - Main.deflection_mid_theor| / |Main.deflection_mid_theor|
      < 1 / 100 := by decide!

/-- C6: deflection is zero at both supports: `get_deflections` seeds the
first entry with `0` on every nonempty mesh, and in the program's run the
last entry (at `x = length`) is exactly `0` as well. -/
theorem deflection_zero_at_supports :
    (∀ (d : ℚ) (x s : List ℚ), x ≠ [] → (get_deflections d x s).getD 0 0 = 0)
    ∧ Main.deflection_list.getD 0 0 = 0
    ∧ Main.deflection_list.getLast? = some 0 := by
  refine ⟨?_, ?_, ?_⟩
  · intro d x s hx
    cases h : x.length with
    | zero => exact absurd (List.length_eq_zero.mp h) hx
    | succ m => simp [get_deflections, h]
  · decide!
  · decide!

/-- Witness for C6 on the one-point mesh `[0]`. -/
theorem deflection_zero_at_supports_witness :
    (get_deflections 1 [0] [5]).getD 0 0 = 0 :=
  deflection_zero_at_supports.1 1 [0] [5] (by simp)

/-- The mesh has `⌈L/d⌉` arange samples plus the appended endpoint. -/
theorem space_mesh_length (L d : ℚ) :
    (space_mesh L d).length = Int.toNat ⌈L / d⌉ + 1 := by
  simp [space_mesh, arange_length]

/-- Below the appended endpoint, the `i`-th mesh point is `i * d`. -/
theorem space_mesh_getD_lt (L d : ℚ) (i : Nat) (hi : i < Int.toNat ⌈L / d⌉) :
    (space_mesh L d).getD i 0 = i * d := by
  have hi' : i < (arange 0 L d).length := by
    rw [arange_length, sub_zero]; exact hi
  rw [space_mesh, List.getD_append _ _ _ _ hi',
    arange_getD 0 L d i (by rw [sub_zero]; exact hi), zero_add]

/-- The appended endpoint sits at index `⌈L/d⌉` and equals `L`. -/
theorem space_mesh_getD_last (L d : ℚ) :
    (space_mesh L d).getD (Int.toNat ⌈L / d⌉) 0 = L := by
  have hlen : (arange 0 L d).length = Int.toNat ⌈L / d⌉ := by
    rw [arange_length, sub_zero]
  rw [space_mesh, List.getD_append_right _ _ _ _ (le_of_eq hlen), hlen,
    Nat.sub_self]
  rfl

/-- The sample count times `d` brackets `L`: `(⌈L/d⌉ - 1) d < L ≤ ⌈L/d⌉ d`. -/
theorem ceil_scaled_bounds (L d : ℚ) (hd : 0 < d) (hdL : d ≤ L) :
    ((Int.toNat ⌈L / d⌉ : ℚ) - 1) * d < L
    ∧ L ≤ (Int.toNat ⌈L / d⌉ : ℚ) * d := by
  have hL : 0 < L := lt_of_lt_of_le hd hdL
  have hz : (0 : ℤ) ≤ ⌈L / d⌉ := Int.ceil_nonneg (le_of_lt (div_pos hL hd))
  have hcast : ((Int.toNat ⌈L / d⌉ : ℕ) : ℚ) = ((⌈L / d⌉ : ℤ) : ℚ) := by
    have h2 : ((Int.toNat ⌈L / d⌉ : ℕ) : ℤ) = ⌈L / d⌉ := Int.toNat_of_nonneg hz
    exact_mod_cast congrArg (fun t : ℤ => (t : ℚ)) h2
  constructor
  · rw [hcast, ← lt_div_iff₀ hd]
    have h3 : ((⌈L / d⌉ : ℤ) : ℚ) < L / d + 1 := Int.ceil_lt_add_one (L / d)
    linarith
  · rw [hcast, ← div_le_iff₀ hd]
    exact Int.le_ceil (L / d)

/-- At least one arange sample exists when `0 < d ≤ L`. -/
theorem space_mesh_count_pos (L d : ℚ) (hd : 0 < d) (hdL : d ≤ L) :
    1 ≤ Int.toNat ⌈L / d⌉ := by
  have hL : 0 < L := lt_of_lt_of_le hd hdL
  have h2 : 0 < ⌈L / d⌉ := Int.ceil_pos.mpr (div_pos hL hd)
  omega

/-- `arange 0 L d` in closed map form. -/
theorem arange_zero_eq (L d : ℚ) :
    arange 0 L d = (List.range (Int.toNat ⌈L / d⌉)).map (fun i : Nat => (i : ℚ) * d) := by
  rw [arange, sub_zero]
  exact List.map_congr_left (fun a _ => by ring)

/-- C7: for `0 < dx ≤ length` the generated mesh is a strictly ascending
sequence that starts at `0` and ends exactly at `length`, with spacing `dx`
between consecutive points except for the final interval before the appended
endpoint, which is positive and at most `dx`. -/
theorem space_mesh_spec (L d : ℚ) (hd : 0 < d) (hdL : d ≤ L) :
    (space_mesh L d).head? = some 0
    ∧ (space_mesh L d).getLast? = some L
    ∧ List.Chain' (· < ·) (space_mesh L d)
    ∧ (∀ i : Nat, i + 2 < (space_mesh L d).length →
        (space_mesh L d).getD (i + 1) 0 - (space_mesh L d).getD i 0 = d)
    ∧ 0 < (space_mesh L d).getD ((space_mesh L d).length - 1) 0
        - (space_mesh L d).getD ((space_mesh L d).length - 2) 0
    ∧ (space_mesh L d).getD ((space_mesh L d).length - 1) 0
        - (space_mesh L d).getD ((space_mesh L d).length - 2) 0 ≤ d := by
  have hn1 : 1 ≤ Int.toNat ⌈L / d⌉ := space_mesh_count_pos L d hd hdL
  obtain ⟨hlow, hup⟩ := ceil_scaled_bounds L d hd hdL
  obtain ⟨m, hm⟩ : ∃ m, Int.toNat ⌈L / d⌉ = m + 1 := ⟨Int.toNat ⌈L / d⌉ - 1, by omega⟩
  have hA_ne : arange 0 L d ≠ [] := by
    apply List.length_pos.mp
    rw [arange_length, sub_zero]
    omega
  have hlast : (arange 0 L d).getLast? = some ((m : ℚ) * d) := by
    rw [arange_zero_eq, hm, List.range_succ, List.map_append, List.map_cons,
      List.map_nil, List.getLast?_concat]
  refine ⟨?_, ?_, ?_, ?_, ?_, ?_⟩
  · rw [space_mesh, List.head?_append_of_ne_nil _ hA_ne, arange_zero_eq,
      List.head?_map, List.head?_range]
    have hne : Int.toNat ⌈L / d⌉ ≠ 0 := by omega
    simp [hne]
  · rw [space_mesh, List.getLast?_concat]
  · rw [space_mesh, List.chain'_append]
    refine ⟨?_, List.chain'_singleton _, ?_⟩
    · rw [arange_zero_eq, List.chain'_map, hm, List.chain'_range_succ]
      intro k hk
      have hk1 : (k : ℚ) < ((k + 1 : ℕ) : ℚ) := by push_cast; linarith
      exact mul_lt_mul_of_pos_right hk1 hd
    · intro a ha b hb
      rw [hlast, Option.mem_some_iff] at ha
      simp only [List.head?_cons, Option.mem_some_iff] at hb
      subst ha hb
      have hmc : ((m : ℚ) + 1 - 1) * d < L := by
        have : ((Int.toNat ⌈L / d⌉ : ℕ) : ℚ) = (m : ℚ) + 1 := by
          rw [hm]; push_cast; ring
        rw [this] at hlow
        exact hlow
      calc (m : ℚ) * d = ((m : ℚ) + 1 - 1) * d := by ring
        _ < L := hmc
  · intro i hi
    rw [space_mesh_length] at hi
    rw [space_mesh_getD_lt L d (i + 1) (by omega), space_mesh_getD_lt L d i (by omega)]
    push_cast
    ring
  · have hlen2 : (space_mesh L d).length - 1 = Int.toNat ⌈L / d⌉ := by
      rw [space_mesh_length]; omega
    have hlen3 : (space_mesh L d).length - 2 = Int.toNat ⌈L / d⌉ - 1 := by
      rw [space_mesh_length]; omega
    rw [hlen2, hlen3, space_mesh_getD_last,
      space_mesh_getD_lt L d (Int.toNat ⌈L / d⌉ - 1) (by omega),
      Nat.cast_sub hn1, Nat.cast_one]
    linarith
  · have hlen2 : (space_mesh L d).length - 1 = Int.toNat ⌈L / d⌉ := by
      rw [space_mesh_length]; omega
    have hlen3 : (space_mesh L d).length - 2 = Int.toNat ⌈L / d⌉ - 1 := by
      rw [space_mesh_length]; omega
    rw [hlen2, hlen3, space_mesh_getD_last,
      space_mesh_getD_lt L d (Int.toNat ⌈L / d⌉ - 1) (by omega),
      Nat.cast_sub hn1, Nat.cast_one]
    linarith

/-- Witness for C7 at `length = 1`, `dx = 1` (mesh `[0, 1]`). -/
theorem space_mesh_spec_witness :
    (space_mesh 1 1).head? = some 0 ∧ (space_mesh 1 1).getLast? = some 1 :=
  ⟨(space_mesh_spec 1 1 one_pos le_rfl).1, (space_mesh_spec 1 1 one_pos le_rfl).2.1⟩


end Beam
